import Mathlib

/-
Shallow embedding of the SGS-turbulence core of the freeShearLayer repository
(src/src/turbulence.c): the separable 3-tap field filter `filter_` and the
dynamic Smagorinsky coefficient estimator `DynamicSmagorinsky`.

Modelling conventions.
* The C `real` type is modelled by `ℝ` (exact arithmetic).
* A 3D field over the padded grid is a total function `ℕ → ℕ → ℕ → ℝ`;
  the addressable index range is 0 .. LEN+1 (resp. HIG+1, DEP+1).
* The grid extents LEN, HIG, DEP and the constants _2deltaX, _2deltaY,
  _2deltaZ, DD (the squared grid filter width) and `small` (the division
  guard) come from def.h / global.h, which are not part of src/; following
  the spec they are modelled as an explicit configuration record, with
  LENN = LEN+1, HIGG = HIG+1, DEPP = DEP+1 (loop bounds `i < LENN` become
  `i ≤ LEN`, matching the one-ghost-layer layout the spec describes).
* `Array3D` (helpers.h, also not in src/) allocates a buffer without
  writing it.  Modelled from the spec: allocation returns a buffer whose
  initial contents are an arbitrary but fixed field γ, threaded as an
  explicit parameter, so that a cell never written by the code still holds
  its allocation-time value γ i j k when read.
-/

/-- Configuration record: grid extents and numerical constants that the C
code keeps in def.h / global.h (LEN, HIG, DEP; _2deltaX = 1/(2 hx) etc.;
DD = Δ²; `small` = ε). -/
structure Config where
  LEN : ℕ
  HIG : ℕ
  DEP : ℕ
  D2X : ℝ
  D2Y : ℝ
  D2Z : ℝ
  DD : ℝ
  small : ℝ

/-- A 3D scalar field over the padded grid, total on ℕ³. -/
abbrev Field3 : Type := ℕ → ℕ → ℕ → ℝ

/-- Strict-interior cell: 1 ≤ i ≤ LEN, 1 ≤ j ≤ HIG, 1 ≤ k ≤ DEP — the
range of the two main loops of DynamicSmagorinsky
(`for i=1; i<LENN`, turbulence.c lines 250-252 and 398-400). -/
def interiorP (c : Config) (i j k : ℕ) : Prop :=
  1 ≤ i ∧ i ≤ c.LEN ∧ 1 ≤ j ∧ j ≤ c.HIG ∧ 1 ≤ k ∧ k ≤ c.DEP

/-- Addressable (padded-grid) cell: 0 ≤ i ≤ LEN+1 etc., the allocation
extent (LEN+2)×(HIG+2)×(DEP+2) and also the range of the
primitive-recovery loop (`for i=0; i<LENN+1`, turbulence.c lines 197-199). -/
def paddedP (c : Config) (i j k : ℕ) : Prop :=
  i ≤ c.LEN + 1 ∧ j ≤ c.HIG + 1 ∧ k ≤ c.DEP + 1

instance (c : Config) (i j k : ℕ) : Decidable (interiorP c i j k) := by
  unfold interiorP; infer_instance

instance (c : Config) (i j k : ℕ) : Decidable (paddedP c i j k) := by
  unfold paddedP; infer_instance

noncomputable section

/-- First pass of filter_ (turbulence.c lines 47-61): 1D stencil along the
j axis, written into the fresh buffer U__ for i in 0..LEN, j in 1..HIG,
k in 0..DEP; cells outside that range keep the buffer's allocation-time
contents γ. -/
def passJ (c : Config) (h0 h1 h2 : ℝ) (U γ : Field3) : Field3 := fun i j k =>
  if i ≤ c.LEN ∧ 1 ≤ j ∧ j ≤ c.HIG ∧ k ≤ c.DEP then
    U i (j - 1) k * h0 + U i j k * h1 + U i (j + 1) k * h2
  else γ i j k

/-- Second pass of filter_ (turbulence.c lines 63-77): 1D stencil along the
k axis reading the first pass's buffer, written into the fresh buffer U_
for i in 0..LEN, j in 0..HIG, k in 1..DEP. -/
def passK (c : Config) (h0 h1 h2 : ℝ) (V γ : Field3) : Field3 := fun i j k =>
  if i ≤ c.LEN ∧ j ≤ c.HIG ∧ 1 ≤ k ∧ k ≤ c.DEP then
    V i j (k - 1) * h0 + V i j k * h1 + V i j (k + 1) * h2
  else γ i j k

/-- Third pass of filter_ (turbulence.c lines 80-95): 1D stencil along the
i axis reading the second pass's buffer, written back into the first
pass's buffer U__ for i in 1..LEN, j in 0..HIG, k in 0..DEP; cells outside
that range keep whatever U__ held after the first pass. -/
def passI (c : Config) (h0 h1 h2 : ℝ) (W prev : Field3) : Field3 := fun i j k =>
  if 1 ≤ i ∧ i ≤ c.LEN ∧ j ≤ c.HIG ∧ k ≤ c.DEP then
    W (i - 1) j k * h0 + W i j k * h1 + W (i + 1) j k * h2
  else prev i j k

/-- The separable field filter filter_ (turbulence.c lines 17-100): three
sequential 1D passes (j axis, then k axis, then i axis) with the 3-tap
kernel (h0, h1, h2); the returned buffer is U__, which holds the third
pass where written and the first pass's contents elsewhere.  γ is the
allocation-time content of the two temporary buffers. -/
def filter_ (c : Config) (h0 h1 h2 : ℝ) (U γ : Field3) : Field3 :=
  passI c h0 h1 h2 (passK c h0 h1 h2 (passJ c h0 h1 h2 U γ) γ) (passJ c h0 h1 h2 U γ)

/-- Primitive recovery (turbulence.c lines 196-209): u = ru·(1/ρ) over the
whole padded grid, `for i=0; i<LENN+1` on every axis; cells beyond the
addressable range keep the fresh buffer's contents γ.  Also yields v and w
from rv and rw. -/
def primVel (c : Config) (rho rm γ : Field3) : Field3 := fun i j k =>
  if paddedP c i j k then rm i j k * (1 / rho i j k) else γ i j k

/-- Unfiltered product u_i·u_j (turbulence.c lines 211-230), stored into
the freshly allocated Leonard-tensor buffers over the whole padded grid. -/
def prodField (c : Config) (a b γ : Field3) : Field3 := fun i j k =>
  if paddedP c i j k then a i j k * b i j k else γ i j k

/-- Test-filtered velocity component (turbulence.c lines 232-235):
filter_ applied with the box kernel (1/3, 1/3, 1/3) to a primitive
velocity component. -/
def filtVel (c : Config) (rho rm γ : Field3) : Field3 :=
  filter_ c (1/3) (1/3) (1/3) (primVel c rho rm γ) γ

/-- Test-filtered product field (turbulence.c lines 237-248): filter_
applied with the box kernel to the unfiltered product u_a·u_b. -/
def filtProd (c : Config) (rho ra rb γ : Field3) : Field3 :=
  filter_ c (1/3) (1/3) (1/3)
    (prodField c (primVel c rho ra γ) (primVel c rho rb γ) γ) γ

/-- Leonard stress component L_ab before the deviatoric correction
(turbulence.c lines 259-269): on the strict interior
L_ab = filtered(u_a·u_b) − filtered(u_a)·filtered(u_b); outside the
interior the buffer still holds the unfiltered product it was loaded with
at lines 213-230. -/
def leonard (c : Config) (rho ra rb γ : Field3) : Field3 := fun i j k =>
  if interiorP c i j k then
    filtProd c rho ra rb γ i j k - filtVel c rho ra γ i j k * filtVel c rho rb γ i j k
  else prodField c (primVel c rho ra γ) (primVel c rho rb γ) γ i j k

/-- Central difference along i (turbulence.c line 273): (f[i+1]−f[i−1])·_2deltaX. -/
def ddx (c : Config) (f : Field3) (i j k : ℕ) : ℝ :=
  (f (i + 1) j k - f (i - 1) j k) * c.D2X

/-- Central difference along j (turbulence.c line 274). -/
def ddy (c : Config) (f : Field3) (i j k : ℕ) : ℝ :=
  (f i (j + 1) k - f i (j - 1) k) * c.D2Y

/-- Central difference along k (turbulence.c line 275). -/
def ddz (c : Config) (f : Field3) (i j k : ℕ) : ℝ :=
  (f i j (k + 1) - f i j (k - 1)) * c.D2Z

/-- Strain component S11 = du_dx (turbulence.c line 286), as a function of
a velocity triple so the same formulas serve the unfiltered (lines
286-296) and filtered (lines 329-339) strain tensors. -/
def S11 (c : Config) (uu vv ww : Field3) (i j k : ℕ) : ℝ := ddx c uu i j k

/-- Strain component S12 = 0.5·(du_dy + dv_dx) (turbulence.c line 287). -/
def S12 (c : Config) (uu vv ww : Field3) (i j k : ℕ) : ℝ :=
  0.5 * (ddy c uu i j k + ddx c vv i j k)

/-- Strain component S13 = 0.5·(du_dz + dw_dx) (turbulence.c line 288). -/
def S13 (c : Config) (uu vv ww : Field3) (i j k : ℕ) : ℝ :=
  0.5 * (ddz c uu i j k + ddx c ww i j k)

/-- Strain component S21 = 0.5·(dv_dx + du_dy) (turbulence.c line 290). -/
def S21 (c : Config) (uu vv ww : Field3) (i j k : ℕ) : ℝ :=
  0.5 * (ddx c vv i j k + ddy c uu i j k)

/-- Strain component S22 = dv_dy (turbulence.c line 291). -/
def S22 (c : Config) (uu vv ww : Field3) (i j k : ℕ) : ℝ := ddy c vv i j k

/-- Strain component S23 = 0.5·(dv_dz + dw_dy) (turbulence.c line 292). -/
def S23 (c : Config) (uu vv ww : Field3) (i j k : ℕ) : ℝ :=
  0.5 * (ddz c vv i j k + ddy c ww i j k)

/-- Strain component S31 = 0.5·(dw_dx + du_dz) (turbulence.c line 294). -/
def S31 (c : Config) (uu vv ww : Field3) (i j k : ℕ) : ℝ :=
  0.5 * (ddx c ww i j k + ddz c uu i j k)

/-- Strain component S32 = 0.5·(dw_dy + dv_dz) (turbulence.c line 295). -/
def S32 (c : Config) (uu vv ww : Field3) (i j k : ℕ) : ℝ :=
  0.5 * (ddy c ww i j k + ddz c vv i j k)

/-- Strain component S33 = dw_dz (turbulence.c line 296). -/
def S33 (c : Config) (uu vv ww : Field3) (i j k : ℕ) : ℝ := ddz c ww i j k

/-- Strain magnitude |S| = sqrt(2·(S11² + … + S33²)), the full nine-term
double contraction (turbulence.c lines 299-301 and 343-345). -/
def magS (c : Config) (uu vv ww : Field3) (i j k : ℕ) : ℝ :=
  Real.sqrt (2 * (S11 c uu vv ww i j k * S11 c uu vv ww i j k
                + S12 c uu vv ww i j k * S12 c uu vv ww i j k
                + S13 c uu vv ww i j k * S13 c uu vv ww i j k
                + S21 c uu vv ww i j k * S21 c uu vv ww i j k
                + S22 c uu vv ww i j k * S22 c uu vv ww i j k
                + S23 c uu vv ww i j k * S23 c uu vv ww i j k
                + S31 c uu vv ww i j k * S31 c uu vv ww i j k
                + S32 c uu vv ww i j k * S32 c uu vv ww i j k
                + S33 c uu vv ww i j k * S33 c uu vv ww i j k))

/-- The magStrain field (turbulence.c line 311): |S| of the unfiltered
velocities, recorded on the strict interior; elsewhere the fresh buffer's
contents γ. -/
def magStrain (c : Config) (rho ru rv rw γ : Field3) : Field3 := fun i j k =>
  if interiorP c i j k then
    magS c (primVel c rho ru γ) (primVel c rho rv γ) (primVel c rho rw γ) i j k
  else γ i j k

/-- A generic |S|·S_ab field written on the strict interior over a fresh
buffer: with the unfiltered velocity triple this is A_ab (turbulence.c
lines 369-379), with the filtered triple it is B_ab (lines 356-366, which
build B from the filtered velocities' own strain). -/
def tensorSS (c : Config) (uu vv ww γ : Field3)
    (Sab : Config → Field3 → Field3 → Field3 → ℕ → ℕ → ℕ → ℝ) : Field3 := fun i j k =>
  if interiorP c i j k then magS c uu vv ww i j k * Sab c uu vv ww i j k
  else γ i j k

/-- Model tensor component M_ab = DD·(4·B_ab − filtered(A_ab))
(turbulence.c lines 405-415), the factor 4 being the squared test-to-grid
filter-width ratio. -/
def Mcomp (c : Config) (rho ru rv rw γ : Field3)
    (Sab : Config → Field3 → Field3 → Field3 → ℕ → ℕ → ℕ → ℝ) (i j k : ℕ) : ℝ :=
  c.DD * (4 * tensorSS c (filtVel c rho ru γ) (filtVel c rho rv γ)
                (filtVel c rho rw γ) γ Sab i j k
          - filter_ c (1/3) (1/3) (1/3)
              (tensorSS c (primVel c rho ru γ) (primVel c rho rv γ)
                (primVel c rho rw γ) γ Sab) γ i j k)

/-- The per-cell correction term _trace13 = −(1/3)·(L11 + L22 + L33)
(turbulence.c line 418). -/
def trace13 (c : Config) (rho ru rv rw γ : Field3) (i j k : ℕ) : ℝ :=
  -(1/3) * (leonard c rho ru ru γ i j k + leonard c rho rv rv γ i j k
            + leonard c rho rw rw γ i j k)

/-- Corrected diagonal Leonard component L11 + _trace13 (turbulence.c line 419). -/
def Ldev11 (c : Config) (rho ru rv rw γ : Field3) (i j k : ℕ) : ℝ :=
  leonard c rho ru ru γ i j k + trace13 c rho ru rv rw γ i j k

/-- Corrected diagonal Leonard component L22 + _trace13 (turbulence.c line 420). -/
def Ldev22 (c : Config) (rho ru rv rw γ : Field3) (i j k : ℕ) : ℝ :=
  leonard c rho rv rv γ i j k + trace13 c rho ru rv rw γ i j k

/-- Corrected diagonal Leonard component L33 + _trace13 (turbulence.c line 421). -/
def Ldev33 (c : Config) (rho ru rv rw γ : Field3) (i j k : ℕ) : ℝ :=
  leonard c rho rw rw γ i j k + trace13 c rho ru rv rw γ i j k

/-- Double contraction L:M with the corrected Leonard tensor, nine terms
(turbulence.c lines 424-426); the off-diagonal components are untouched by
the correction at lines 419-421. -/
def LLMM (c : Config) (rho ru rv rw γ : Field3) (i j k : ℕ) : ℝ :=
  Ldev11 c rho ru rv rw γ i j k * Mcomp c rho ru rv rw γ S11 i j k
  + leonard c rho ru rv γ i j k * Mcomp c rho ru rv rw γ S12 i j k
  + leonard c rho ru rw γ i j k * Mcomp c rho ru rv rw γ S13 i j k
  + leonard c rho rv ru γ i j k * Mcomp c rho ru rv rw γ S21 i j k
  + Ldev22 c rho ru rv rw γ i j k * Mcomp c rho ru rv rw γ S22 i j k
  + leonard c rho rv rw γ i j k * Mcomp c rho ru rv rw γ S23 i j k
  + leonard c rho rw ru γ i j k * Mcomp c rho ru rv rw γ S31 i j k
  + leonard c rho rw rv γ i j k * Mcomp c rho ru rv rw γ S32 i j k
  + Ldev33 c rho ru rv rw γ i j k * Mcomp c rho ru rv rw γ S33 i j k

/-- Double contraction M:M, nine terms (turbulence.c lines 429-431). -/
def MMMM (c : Config) (rho ru rv rw γ : Field3) (i j k : ℕ) : ℝ :=
  Mcomp c rho ru rv rw γ S11 i j k * Mcomp c rho ru rv rw γ S11 i j k
  + Mcomp c rho ru rv rw γ S12 i j k * Mcomp c rho ru rv rw γ S12 i j k
  + Mcomp c rho ru rv rw γ S13 i j k * Mcomp c rho ru rv rw γ S13 i j k
  + Mcomp c rho ru rv rw γ S21 i j k * Mcomp c rho ru rv rw γ S21 i j k
  + Mcomp c rho ru rv rw γ S22 i j k * Mcomp c rho ru rv rw γ S22 i j k
  + Mcomp c rho ru rv rw γ S23 i j k * Mcomp c rho ru rv rw γ S23 i j k
  + Mcomp c rho ru rv rw γ S31 i j k * Mcomp c rho ru rv rw γ S31 i j k
  + Mcomp c rho ru rv rw γ S32 i j k * Mcomp c rho ru rv rw γ S32 i j k
  + Mcomp c rho ru rv rw γ S33 i j k * Mcomp c rho ru rv rw γ S33 i j k

/-- Raw coefficient Cd = −0.5·(LLMM/(MMMM + small)) (turbulence.c line 433). -/
def Cd0 (c : Config) (rho ru rv rw γ : Field3) (i j k : ℕ) : ℝ :=
  -0.5 * (LLMM c rho ru rv rw γ i j k / (MMMM c rho ru rv rw γ i j k + c.small))

/-- The clipping of Cd (turbulence.c lines 436-440): values above 0.15 are
capped, negative values are zeroed. -/
def clip (x : ℝ) : ℝ :=
  if 0.15 < x then 0.15 else if x < 0 then 0 else x

/-- DynamicSmagorinsky (turbulence.c lines 103-507): writes
μ_SGS = ρ·Cd·DD·|S| at every strict-interior cell (line 442) of the
caller-owned output buffer; every other cell of that buffer keeps its
prior value muPrev. -/
def DynamicSmagorinsky (c : Config) (rho ru rv rw γ muPrev : Field3) : Field3 :=
  fun i j k =>
    if interiorP c i j k then
      rho i j k * clip (Cd0 c rho ru rv rw γ i j k) * c.DD
        * magStrain c rho ru rv rw γ i j k
    else muPrev i j k

end

/-- The region of filter_ output cells for which every stencil value read
during the three passes is a defined source value (original input or the
output of an earlier pass).  Chasing the pass bounds: the j pass reads
only the input; the k pass at k reads the j pass at k−1..k+1, which are
written only for k+1 ≤ DEP and j ≥ 1; the i pass at i reads the k pass at
i−1..i+1, written only for i+1 ≤ LEN and 1 ≤ k ≤ DEP.  Hence
1 ≤ i ≤ LEN−1, 1 ≤ j ≤ HIG, 1 ≤ k ≤ DEP−1. -/
def validP (c : Config) (i j k : ℕ) : Prop :=
  1 ≤ i ∧ i + 1 ≤ c.LEN ∧ 1 ≤ j ∧ j ≤ c.HIG ∧ 1 ≤ k ∧ k + 1 ≤ c.DEP

instance (c : Config) (i j k : ℕ) : Decidable (validP c i j k) := by
  unfold validP; infer_instance

/-- A small concrete configuration (interior 1×1×1 grid) used by concrete
instances of the theorems below. -/
def cEx : Config := ⟨1, 1, 1, 0, 0, 0, 0, 0⟩

/-- A concrete configuration with a 2×1×2 interior, so that the
defined-source region of filter_ is nonempty. -/
def cEx2 : Config := ⟨2, 1, 2, 0, 0, 0, 0, 0⟩

/-- The everywhere-zero field. -/
def zeroF : Field3 := fun _ _ _ => 0

/-- The everywhere-one field. -/
def oneF : Field3 := fun _ _ _ => 1

theorem passJ_written (c : Config) (h0 h1 h2 : ℝ) (U γ : Field3) (i j k : ℕ)
    (hi : i ≤ c.LEN) (hj1 : 1 ≤ j) (hj2 : j ≤ c.HIG) (hk : k ≤ c.DEP) :
    passJ c h0 h1 h2 U γ i j k
      = U i (j - 1) k * h0 + U i j k * h1 + U i (j + 1) k * h2 := by
  unfold passJ
  rw [if_pos ⟨hi, hj1, hj2, hk⟩]

theorem passK_written (c : Config) (h0 h1 h2 : ℝ) (V γ : Field3) (i j k : ℕ)
    (hi : i ≤ c.LEN) (hj : j ≤ c.HIG) (hk1 : 1 ≤ k) (hk2 : k ≤ c.DEP) :
    passK c h0 h1 h2 V γ i j k
      = V i j (k - 1) * h0 + V i j k * h1 + V i j (k + 1) * h2 := by
  unfold passK
  rw [if_pos ⟨hi, hj, hk1, hk2⟩]

theorem passI_written (c : Config) (h0 h1 h2 : ℝ) (W prev : Field3) (i j k : ℕ)
    (hi1 : 1 ≤ i) (hi2 : i ≤ c.LEN) (hj : j ≤ c.HIG) (hk : k ≤ c.DEP) :
    passI c h0 h1 h2 W prev i j k
      = W (i - 1) j k * h0 + W i j k * h1 + W (i + 1) j k * h2 := by
  unfold passI
  rw [if_pos ⟨hi1, hi2, hj, hk⟩]

/-- C2 (counterexample): on the 1×1×1-interior grid, cell (1,1,1) is a
strict-interior output cell of filter_, yet the box-filtered output there
changes when only the allocation-time contents of the temporary buffers
change (input identically zero, buffer contents 1 versus 0) — so the
strict-interior output is not a function of the input field alone: the
third pass reads the unwritten cell U_[LEN+1][j][k] and the second pass
reads the unwritten cell U__[i][j][DEP+1]. -/
theorem filter_strict_interior_reads_unwritten :
    filter_ cEx (1/3) (1/3) (1/3) zeroF oneF 1 1 1
      ≠ filter_ cEx (1/3) (1/3) (1/3) zeroF zeroF 1 1 1 := by
  have h1 : filter_ cEx (1/3) (1/3) (1/3) zeroF oneF 1 1 1 = 5 / 9 := by
    unfold filter_ passI passK passJ cEx zeroF oneF
    norm_num
  have h0 : filter_ cEx (1/3) (1/3) (1/3) zeroF zeroF 1 1 1 = 0 := by
    unfold filter_ passI passK passJ cEx zeroF
    norm_num
  rw [h1, h0]
  norm_num

/-- C2 (amended): for every output cell in the defined-source region
(1 ≤ i ≤ LEN−1, 1 ≤ j ≤ HIG, 1 ≤ k ≤ DEP−1) every stencil value read by
the three passes is original input or the output of an earlier pass, so
there the output of filter_ is a function of the input field alone —
independent of the allocation-time contents of the temporary buffers. -/
theorem filter_valid_region_input_only (c : Config) (h0 h1 h2 : ℝ)
    (U γ γ' : Field3) (i j k : ℕ) (h : validP c i j k) :
    filter_ c h0 h1 h2 U γ i j k = filter_ c h0 h1 h2 U γ' i j k := by
  obtain ⟨hi1, hi2, hj1, hj2, hk1, hk2⟩ := h
  have hJ : ∀ i' k', i' ≤ c.LEN → k' ≤ c.DEP →
      passJ c h0 h1 h2 U γ i' j k' = passJ c h0 h1 h2 U γ' i' j k' := by
    intro i' k' hi hk
    rw [passJ_written c h0 h1 h2 U γ i' j k' hi hj1 hj2 hk,
        passJ_written c h0 h1 h2 U γ' i' j k' hi hj1 hj2 hk]
  have hK : ∀ i', i' ≤ c.LEN →
      passK c h0 h1 h2 (passJ c h0 h1 h2 U γ) γ i' j k
        = passK c h0 h1 h2 (passJ c h0 h1 h2 U γ') γ' i' j k := by
    intro i' hi
    rw [passK_written c h0 h1 h2 _ γ i' j k hi hj2 hk1 (by omega),
        passK_written c h0 h1 h2 _ γ' i' j k hi hj2 hk1 (by omega),
        hJ i' (k - 1) hi (by omega), hJ i' k hi (by omega),
        hJ i' (k + 1) hi (by omega)]
  unfold filter_
  rw [passI_written c h0 h1 h2 _ _ i j k hi1 (by omega) hj2 (by omega),
      passI_written c h0 h1 h2 _ _ i j k hi1 (by omega) hj2 (by omega),
      hK (i - 1) (by omega), hK i (by omega), hK (i + 1) (by omega)]

/-- Concrete instance of the amended C2 theorem: on the 2×1×2-interior
grid, the box-filtered value at the defined-source cell (1,1,1) of the
zero field does not change when the buffer contents change from 0 to 1. -/
theorem filter_valid_region_input_only_inst :
    filter_ cEx2 (1/3) (1/3) (1/3) zeroF zeroF 1 1 1
      = filter_ cEx2 (1/3) (1/3) (1/3) zeroF oneF 1 1 1 :=
  filter_valid_region_input_only cEx2 (1/3) (1/3) (1/3) zeroF zeroF oneF 1 1 1
    (by decide)

/-- C5: if the 3-tap kernel weights sum to 1, filter_ maps a spatially
constant field to the same constant at every cell of the defined-source
region (the region where every contributing stencil point had a defined
source value). -/
theorem filter_const_preserved (c : Config) (h0 h1 h2 x : ℝ) (U γ : Field3)
    (hsum : h0 + h1 + h2 = 1) (hU : ∀ i j k, U i j k = x) (i j k : ℕ)
    (h : validP c i j k) :
    filter_ c h0 h1 h2 U γ i j k = x := by
  obtain ⟨hi1, hi2, hj1, hj2, hk1, hk2⟩ := h
  have hJ : ∀ i' k', i' ≤ c.LEN → k' ≤ c.DEP →
      passJ c h0 h1 h2 U γ i' j k' = x := by
    intro i' k' hi hk
    rw [passJ_written c h0 h1 h2 U γ i' j k' hi hj1 hj2 hk, hU, hU, hU]
    linear_combination x * hsum
  have hK : ∀ i', i' ≤ c.LEN →
      passK c h0 h1 h2 (passJ c h0 h1 h2 U γ) γ i' j k = x := by
    intro i' hi
    rw [passK_written c h0 h1 h2 _ γ i' j k hi hj2 hk1 (by omega),
        hJ i' (k - 1) hi (by omega), hJ i' k hi (by omega),
        hJ i' (k + 1) hi (by omega)]
    linear_combination x * hsum
  unfold filter_
  rw [passI_written c h0 h1 h2 _ _ i j k hi1 (by omega) hj2 (by omega),
      hK (i - 1) (by omega), hK i (by omega), hK (i + 1) (by omega)]
  linear_combination x * hsum

/-- Concrete instance of C5: the Gaussian kernel (1/4, 2/4, 1/4) maps the
constant-one field to 1 at the defined-source cell (1,1,1) of the
2×1×2-interior grid. -/
theorem filter_const_preserved_inst :
    filter_ cEx2 (1/4) (2/4) (1/4) oneF zeroF 1 1 1 = 1 :=
  filter_const_preserved cEx2 (1/4) (2/4) (1/4) 1 oneF zeroF (by norm_num)
    (fun _ _ _ => rfl) 1 1 1 (by decide)

/-- C8: the degenerate identity kernel (0, 1, 0) leaves any field
unchanged at every strict-interior cell after the full three-axis pass of
filter_. -/
theorem filter_identity_kernel (c : Config) (U γ : Field3) (i j k : ℕ)
    (h : interiorP c i j k) :
    filter_ c 0 1 0 U γ i j k = U i j k := by
  obtain ⟨hi1, hi2, hj1, hj2, hk1, hk2⟩ := h
  unfold filter_
  rw [passI_written c 0 1 0 _ _ i j k hi1 hi2 hj2 hk2]
  simp only [mul_zero, mul_one, zero_add, add_zero]
  rw [passK_written c 0 1 0 _ γ i j k hi2 hj2 hk1 hk2]
  simp only [mul_zero, mul_one, zero_add, add_zero]
  rw [passJ_written c 0 1 0 U γ i j k hi2 hj1 hj2 hk2]
  simp only [mul_zero, mul_one, zero_add, add_zero]

/-- Concrete instance of C8: the identity kernel returns the field
i ↦ i at the strict-interior cell (1,1,1) of the 1×1×1-interior grid. -/
theorem filter_identity_kernel_inst :
    filter_ cEx 0 1 0 (fun i _ _ => (i : ℝ)) zeroF 1 1 1 = 1 := by
  have h := filter_identity_kernel cEx (fun i _ _ => (i : ℝ)) zeroF 1 1 1 (by decide)
  simpa using h


theorem clip_eq_max_min (x : ℝ) : clip x = max 0 (min 0.15 x) := by
  unfold clip
  rcases lt_or_le 0.15 x with hx | hx
  · rw [if_pos hx, min_eq_left hx.le, max_eq_right (by norm_num)]
  · rw [if_neg (not_lt.mpr hx), min_eq_right hx]
    rcases lt_or_le x 0 with h0 | h0
    · rw [if_pos h0, max_eq_left h0.le]
    · rw [if_neg (not_lt.mpr h0), max_eq_right h0]

theorem clip_nonneg (x : ℝ) : 0 ≤ clip x := by
  unfold clip
  split_ifs with h1 h2
  · norm_num
  · exact le_refl 0
  · exact le_of_not_lt h2

/-- C1: at every strict-interior cell, DynamicSmagorinsky writes
μ_SGS = ρ · Cd_clipped · Δ² · |S|, where the raw coefficient is
Cd = −0.5·(L:M)/(M:M + ε) (nine-term double contractions of the
deviatoric Leonard tensor against M, see `LLMM` and `MMMM`), the clip is
the clamp of Cd to [0, 0.15], and |S| is the strain magnitude computed
from the unfiltered velocities at that cell. -/
theorem DynamicSmagorinsky_mu_formula (c : Config) (rho ru rv rw γ muPrev : Field3)
    (i j k : ℕ) (h : interiorP c i j k) :
    DynamicSmagorinsky c rho ru rv rw γ muPrev i j k
      = rho i j k
        * max 0 (min 0.15 (-0.5 * (LLMM c rho ru rv rw γ i j k
            / (MMMM c rho ru rv rw γ i j k + c.small))))
        * c.DD
        * magS c (primVel c rho ru γ) (primVel c rho rv γ) (primVel c rho rw γ) i j k := by
  unfold DynamicSmagorinsky
  rw [if_pos h]
  unfold magStrain
  rw [if_pos h, clip_eq_max_min]
  unfold Cd0
  rfl

/-- Concrete instance of C1 at the strict-interior cell (1,1,1) of the
1×1×1-interior grid. -/
theorem DynamicSmagorinsky_mu_formula_inst :
    DynamicSmagorinsky cEx oneF zeroF zeroF zeroF zeroF oneF 1 1 1
      = oneF 1 1 1
        * max 0 (min 0.15 (-0.5 * (LLMM cEx oneF zeroF zeroF zeroF zeroF 1 1 1
            / (MMMM cEx oneF zeroF zeroF zeroF zeroF 1 1 1 + cEx.small))))
        * cEx.DD
        * magS cEx (primVel cEx oneF zeroF zeroF) (primVel cEx oneF zeroF zeroF)
            (primVel cEx oneF zeroF zeroF) 1 1 1 :=
  DynamicSmagorinsky_mu_formula cEx oneF zeroF zeroF zeroF zeroF oneF 1 1 1 (by decide)

/-- C3: with ρ ≥ 0 everywhere and Δ² ≥ 0, the μ_SGS value written by
DynamicSmagorinsky is nonnegative at every strict-interior cell: the
clipped coefficient lies in [0, 0.15] and the recorded strain magnitude is
a square root, hence nonnegative. -/
theorem mu_SGS_nonneg (c : Config) (rho ru rv rw γ muPrev : Field3)
    (hDD : 0 ≤ c.DD) (hrho : ∀ i j k, 0 ≤ rho i j k) (i j k : ℕ)
    (h : interiorP c i j k) :
    0 ≤ DynamicSmagorinsky c rho ru rv rw γ muPrev i j k := by
  unfold DynamicSmagorinsky
  rw [if_pos h]
  have hmag : 0 ≤ magStrain c rho ru rv rw γ i j k := by
    unfold magStrain
    rw [if_pos h]
    exact Real.sqrt_nonneg _
  exact mul_nonneg (mul_nonneg (mul_nonneg (hrho i j k) (clip_nonneg _)) hDD) hmag

/-- Concrete instance of C3: μ_SGS is nonnegative at (1,1,1) for the
constant-one density field. -/
theorem mu_SGS_nonneg_inst :
    0 ≤ DynamicSmagorinsky cEx oneF zeroF zeroF zeroF zeroF oneF 1 1 1 :=
  mu_SGS_nonneg cEx oneF zeroF zeroF zeroF zeroF oneF (by norm_num [cEx])
    (fun _ _ _ => by norm_num [oneF]) 1 1 1 (by decide)

/-- C4: after the deviatoric correction the trace of the Leonard tensor
vanishes exactly: the three corrected diagonal components sum to zero at
every strict-interior cell, for arbitrary input fields. -/
theorem leonard_dev_trace_zero (c : Config) (rho ru rv rw γ : Field3)
    (i j k : ℕ) (h : interiorP c i j k) :
    Ldev11 c rho ru rv rw γ i j k + Ldev22 c rho ru rv rw γ i j k
      + Ldev33 c rho ru rv rw γ i j k = 0 := by
  unfold Ldev11 Ldev22 Ldev33 trace13
  ring

/-- Concrete instance of C4 at cell (1,1,1) of the 1×1×1-interior grid. -/
theorem leonard_dev_trace_zero_inst :
    Ldev11 cEx oneF zeroF zeroF zeroF zeroF 1 1 1
      + Ldev22 cEx oneF zeroF zeroF zeroF zeroF 1 1 1
      + Ldev33 cEx oneF zeroF zeroF zeroF zeroF 1 1 1 = 0 :=
  leonard_dev_trace_zero cEx oneF zeroF zeroF zeroF zeroF 1 1 1 (by decide)

theorem prodField_comm (c : Config) (a b γ : Field3) :
    prodField c a b γ = prodField c b a γ := by
  funext i j k
  unfold prodField
  by_cases hp : paddedP c i j k
  · rw [if_pos hp, if_pos hp, mul_comm]
  · rw [if_neg hp, if_neg hp]

theorem filtProd_comm (c : Config) (rho ra rb γ : Field3) :
    filtProd c rho ra rb γ = filtProd c rho rb ra γ := by
  unfold filtProd
  rw [prodField_comm]

theorem tensorSS_congr (c : Config) (uu vv ww γ : Field3)
    {F G : Config → Field3 → Field3 → Field3 → ℕ → ℕ → ℕ → ℝ}
    (hS : ∀ i j k, F c uu vv ww i j k = G c uu vv ww i j k) :
    tensorSS c uu vv ww γ F = tensorSS c uu vv ww γ G := by
  funext i j k
  unfold tensorSS
  by_cases hp : interiorP c i j k
  · rw [if_pos hp, if_pos hp, hS]
  · rw [if_neg hp, if_neg hp]

theorem Mcomp_congr (c : Config) (rho ru rv rw γ : Field3)
    {F G : Config → Field3 → Field3 → Field3 → ℕ → ℕ → ℕ → ℝ}
    (hS : ∀ uu vv ww i j k, F c uu vv ww i j k = G c uu vv ww i j k)
    (i j k : ℕ) :
    Mcomp c rho ru rv rw γ F i j k = Mcomp c rho ru rv rw γ G i j k := by
  unfold Mcomp
  rw [tensorSS_congr c _ _ _ γ (fun i j k => hS _ _ _ i j k),
      tensorSS_congr c _ _ _ γ (fun i j k => hS _ _ _ i j k)]

theorem S12_eq_S21 (c : Config) (uu vv ww : Field3) (i j k : ℕ) :
    S12 c uu vv ww i j k = S21 c uu vv ww i j k := by
  unfold S12 S21; ring

theorem S13_eq_S31 (c : Config) (uu vv ww : Field3) (i j k : ℕ) :
    S13 c uu vv ww i j k = S31 c uu vv ww i j k := by
  unfold S13 S31; ring

theorem S23_eq_S32 (c : Config) (uu vv ww : Field3) (i j k : ℕ) :
    S23 c uu vv ww i j k = S32 c uu vv ww i j k := by
  unfold S23 S32; ring

/-- C6: at every strict-interior cell the Leonard tensor is
component-symmetric (L12 = L21, L13 = L31, L23 = L32) and the model
tensor is component-symmetric (M12 = M21, M13 = M31, M23 = M32).  The
deviatoric correction (turbulence.c lines 418-421) updates only the three
diagonal buffers, so the very same off-diagonal equalities are the
symmetry both before and after the correction. -/
theorem leonard_M_symmetric (c : Config) (rho ru rv rw γ : Field3)
    (i j k : ℕ) (h : interiorP c i j k) :
    leonard c rho ru rv γ i j k = leonard c rho rv ru γ i j k ∧
    leonard c rho ru rw γ i j k = leonard c rho rw ru γ i j k ∧
    leonard c rho rv rw γ i j k = leonard c rho rw rv γ i j k ∧
    Mcomp c rho ru rv rw γ S12 i j k = Mcomp c rho ru rv rw γ S21 i j k ∧
    Mcomp c rho ru rv rw γ S13 i j k = Mcomp c rho ru rv rw γ S31 i j k ∧
    Mcomp c rho ru rv rw γ S23 i j k = Mcomp c rho ru rv rw γ S32 i j k := by
  have hL : ∀ ra rb : Field3,
      leonard c rho ra rb γ i j k = leonard c rho rb ra γ i j k := by
    intro ra rb
    unfold leonard
    rw [if_pos h, if_pos h, filtProd_comm]
    ring
  exact ⟨hL ru rv, hL ru rw, hL rv rw,
    Mcomp_congr c rho ru rv rw γ (fun uu vv ww i j k => S12_eq_S21 c uu vv ww i j k) i j k,
    Mcomp_congr c rho ru rv rw γ (fun uu vv ww i j k => S13_eq_S31 c uu vv ww i j k) i j k,
    Mcomp_congr c rho ru rv rw γ (fun uu vv ww i j k => S23_eq_S32 c uu vv ww i j k) i j k⟩

/-- Concrete instance of C6 at cell (1,1,1) of the 1×1×1-interior grid. -/
theorem leonard_M_symmetric_inst :
    leonard cEx oneF zeroF oneF zeroF 1 1 1 = leonard cEx oneF oneF zeroF zeroF 1 1 1 ∧
    leonard cEx oneF zeroF zeroF zeroF 1 1 1 = leonard cEx oneF zeroF zeroF zeroF 1 1 1 ∧
    leonard cEx oneF oneF zeroF zeroF 1 1 1 = leonard cEx oneF zeroF oneF zeroF 1 1 1 ∧
    Mcomp cEx oneF zeroF oneF zeroF zeroF S12 1 1 1
      = Mcomp cEx oneF zeroF oneF zeroF zeroF S21 1 1 1 ∧
    Mcomp cEx oneF zeroF oneF zeroF zeroF S13 1 1 1
      = Mcomp cEx oneF zeroF oneF zeroF zeroF S31 1 1 1 ∧
    Mcomp cEx oneF zeroF oneF zeroF zeroF S23 1 1 1
      = Mcomp cEx oneF zeroF oneF zeroF zeroF S32 1 1 1 :=
  leonard_M_symmetric cEx oneF zeroF oneF zeroF zeroF 1 1 1 (by decide)

/-- C9: DynamicSmagorinsky writes only strict-interior entries of the
caller-owned output buffer: every non-interior (ghost-layer) entry holds
the same value muPrev after the call as before.  The four input fields
and the filter input appear only in read position throughout the
embedding, mirroring the C code, which never stores to rho, ru, rv, rw or
to the filter argument. -/
theorem mu_ghost_frame (c : Config) (rho ru rv rw γ muPrev : Field3)
    (i j k : ℕ) (h : ¬ interiorP c i j k) :
    DynamicSmagorinsky c rho ru rv rw γ muPrev i j k = muPrev i j k := by
  unfold DynamicSmagorinsky
  rw [if_neg h]

/-- Concrete instance of C9: the ghost corner (0,0,0) of the output buffer
keeps its prior value. -/
theorem mu_ghost_frame_inst :
    DynamicSmagorinsky cEx oneF zeroF zeroF zeroF zeroF oneF 0 0 0 = oneF 0 0 0 :=
  mu_ghost_frame cEx oneF zeroF zeroF zeroF zeroF oneF 0 0 0 (by decide)

/-- The set of cells of the primitive-velocity array read by the
strain-rate central differences (turbulence.c lines 273-284): the six
axis neighbors of some strict-interior cell. -/
def diffReads (c : Config) (p q r : ℕ) : Prop :=
  ∃ i j k, interiorP c i j k ∧
    ((p = i + 1 ∧ q = j ∧ r = k) ∨ (p = i - 1 ∧ q = j ∧ r = k) ∨
     (p = i ∧ q = j + 1 ∧ r = k) ∨ (p = i ∧ q = j - 1 ∧ r = k) ∨
     (p = i ∧ q = j ∧ r = k + 1) ∨ (p = i ∧ q = j ∧ r = k - 1))

/-- C10: the primitive-recovery step divides by ρ at every cell of the
full padded (LEN+2)×(HIG+2)×(DEP+2) grid, including the entire outermost
ghost layer — strictly more cells than the strain central differences
ever read: the ghost corner (0,0,0) is addressed by the division loop but
is never a stencil point of the differencing. -/
theorem primitive_division_full_grid (c : Config) (rho rm γ : Field3) :
    (∀ i j k, paddedP c i j k →
        primVel c rho rm γ i j k = rm i j k * (1 / rho i j k))
    ∧ paddedP c 0 0 0 ∧ ¬ diffReads c 0 0 0 := by
  refine ⟨fun i j k hp => ?_, ⟨Nat.zero_le _, Nat.zero_le _, Nat.zero_le _⟩, ?_⟩
  · unfold primVel
    rw [if_pos hp]
  · rintro ⟨i, j, k, hin, hc⟩
    obtain ⟨hi1, hi2, hj1, hj2, hk1, hk2⟩ := hin
    rcases hc with ⟨hp, hq, hr⟩ | ⟨hp, hq, hr⟩ | ⟨hp, hq, hr⟩ | ⟨hp, hq, hr⟩ |
      ⟨hp, hq, hr⟩ | ⟨hp, hq, hr⟩ <;> omega

/-- Concrete instance of C10: the division formula holds at the ghost
corner (0,0,0), which the differencing never reads. -/
theorem primitive_division_full_grid_inst :
    primVel cEx oneF oneF zeroF 0 0 0 = oneF 0 0 0 * (1 / oneF 0 0 0)
      ∧ ¬ diffReads cEx 0 0 0 := by
  have h := primitive_division_full_grid cEx oneF oneF zeroF
  exact ⟨h.1 0 0 0 (by decide), h.2.2⟩

theorem primVel_const (c : Config) (rho rm γ : Field3) (r0 m0 : ℝ)
    (hrho : ∀ i j k, rho i j k = r0) (hm : ∀ i j k, rm i j k = r0 * m0)
    (hr0 : r0 ≠ 0) (i j k : ℕ) (hp : paddedP c i j k) :
    primVel c rho rm γ i j k = m0 := by
  unfold primVel
  rw [if_pos hp, hm, hrho]
  field_simp

/-- C7: for a uniform velocity field (ρ constant and positive, momenta
ρ·u0, ρ·v0, ρ·w0 constant), all nine strain components computed from the
unfiltered velocities vanish, the recorded strain magnitude is 0, and the
μ_SGS written by DynamicSmagorinsky is 0, at every strict-interior cell. -/
theorem uniform_velocity_mu_zero (c : Config) (rho ru rv rw γ muPrev : Field3)
    (r0 u0 v0 w0 : ℝ)
    (hrho : ∀ i j k, rho i j k = r0) (hru : ∀ i j k, ru i j k = r0 * u0)
    (hrv : ∀ i j k, rv i j k = r0 * v0) (hrw : ∀ i j k, rw i j k = r0 * w0)
    (hr0 : 0 < r0) (i j k : ℕ) (h : interiorP c i j k) :
    (S11 c (primVel c rho ru γ) (primVel c rho rv γ) (primVel c rho rw γ) i j k = 0 ∧
     S12 c (primVel c rho ru γ) (primVel c rho rv γ) (primVel c rho rw γ) i j k = 0 ∧
     S13 c (primVel c rho ru γ) (primVel c rho rv γ) (primVel c rho rw γ) i j k = 0 ∧
     S21 c (primVel c rho ru γ) (primVel c rho rv γ) (primVel c rho rw γ) i j k = 0 ∧
     S22 c (primVel c rho ru γ) (primVel c rho rv γ) (primVel c rho rw γ) i j k = 0 ∧
     S23 c (primVel c rho ru γ) (primVel c rho rv γ) (primVel c rho rw γ) i j k = 0 ∧
     S31 c (primVel c rho ru γ) (primVel c rho rv γ) (primVel c rho rw γ) i j k = 0 ∧
     S32 c (primVel c rho ru γ) (primVel c rho rv γ) (primVel c rho rw γ) i j k = 0 ∧
     S33 c (primVel c rho ru γ) (primVel c rho rv γ) (primVel c rho rw γ) i j k = 0) ∧
    magStrain c rho ru rv rw γ i j k = 0 ∧
    DynamicSmagorinsky c rho ru rv rw γ muPrev i j k = 0 := by
  have ⟨hi1, hi2, hj1, hj2, hk1, hk2⟩ := h
  have hU : ∀ p q r, paddedP c p q r → primVel c rho ru γ p q r = u0 :=
    fun p q r hp => primVel_const c rho ru γ r0 u0 hrho hru hr0.ne' p q r hp
  have hV : ∀ p q r, paddedP c p q r → primVel c rho rv γ p q r = v0 :=
    fun p q r hp => primVel_const c rho rv γ r0 v0 hrho hrv hr0.ne' p q r hp
  have hW : ∀ p q r, paddedP c p q r → primVel c rho rw γ p q r = w0 :=
    fun p q r hp => primVel_const c rho rw γ r0 w0 hrho hrw hr0.ne' p q r hp
  have hdx : ∀ (f : Field3) (m0 : ℝ),
      (∀ p q r, paddedP c p q r → f p q r = m0) → ddx c f i j k = 0 := by
    intro f m0 hf
    unfold ddx
    rw [hf (i + 1) j k ⟨by omega, by omega, by omega⟩,
        hf (i - 1) j k ⟨by omega, by omega, by omega⟩]
    ring
  have hdy : ∀ (f : Field3) (m0 : ℝ),
      (∀ p q r, paddedP c p q r → f p q r = m0) → ddy c f i j k = 0 := by
    intro f m0 hf
    unfold ddy
    rw [hf i (j + 1) k ⟨by omega, by omega, by omega⟩,
        hf i (j - 1) k ⟨by omega, by omega, by omega⟩]
    ring
  have hdz : ∀ (f : Field3) (m0 : ℝ),
      (∀ p q r, paddedP c p q r → f p q r = m0) → ddz c f i j k = 0 := by
    intro f m0 hf
    unfold ddz
    rw [hf i j (k + 1) ⟨by omega, by omega, by omega⟩,
        hf i j (k - 1) ⟨by omega, by omega, by omega⟩]
    ring
  have h11 : S11 c (primVel c rho ru γ) (primVel c rho rv γ) (primVel c rho rw γ) i j k = 0 := by
    unfold S11; exact hdx _ u0 hU
  have h12 : S12 c (primVel c rho ru γ) (primVel c rho rv γ) (primVel c rho rw γ) i j k = 0 := by
    unfold S12; rw [hdy _ u0 hU, hdx _ v0 hV]; ring
  have h13 : S13 c (primVel c rho ru γ) (primVel c rho rv γ) (primVel c rho rw γ) i j k = 0 := by
    unfold S13; rw [hdz _ u0 hU, hdx _ w0 hW]; ring
  have h21 : S21 c (primVel c rho ru γ) (primVel c rho rv γ) (primVel c rho rw γ) i j k = 0 := by
    unfold S21; rw [hdx _ v0 hV, hdy _ u0 hU]; ring
  have h22 : S22 c (primVel c rho ru γ) (primVel c rho rv γ) (primVel c rho rw γ) i j k = 0 := by
    unfold S22; exact hdy _ v0 hV
  have h23 : S23 c (primVel c rho ru γ) (primVel c rho rv γ) (primVel c rho rw γ) i j k = 0 := by
    unfold S23; rw [hdz _ v0 hV, hdy _ w0 hW]; ring
  have h31 : S31 c (primVel c rho ru γ) (primVel c rho rv γ) (primVel c rho rw γ) i j k = 0 := by
    unfold S31; rw [hdx _ w0 hW, hdz _ u0 hU]; ring
  have h32 : S32 c (primVel c rho ru γ) (primVel c rho rv γ) (primVel c rho rw γ) i j k = 0 := by
    unfold S32; rw [hdy _ w0 hW, hdz _ v0 hV]; ring
  have h33 : S33 c (primVel c rho ru γ) (primVel c rho rv γ) (primVel c rho rw γ) i j k = 0 := by
    unfold S33; exact hdz _ w0 hW
  have hmag : magS c (primVel c rho ru γ) (primVel c rho rv γ) (primVel c rho rw γ) i j k = 0 := by
    unfold magS
    rw [h11, h12, h13, h21, h22, h23, h31, h32, h33]
    norm_num
  have hmagF : magStrain c rho ru rv rw γ i j k = 0 := by
    unfold magStrain
    rw [if_pos h, hmag]
  refine ⟨⟨h11, h12, h13, h21, h22, h23, h31, h32, h33⟩, hmagF, ?_⟩
  unfold DynamicSmagorinsky
  rw [if_pos h, hmagF, mul_zero]

/-- Concrete instance of C7: ρ ≡ 1, momenta (1·1, 1·0, 1·0) — a uniform
unit x-velocity — give zero strain, zero strain magnitude and zero μ_SGS
at cell (1,1,1). -/
theorem uniform_velocity_mu_zero_inst :
    (S11 cEx (primVel cEx oneF oneF zeroF) (primVel cEx oneF zeroF zeroF)
        (primVel cEx oneF zeroF zeroF) 1 1 1 = 0 ∧
     S12 cEx (primVel cEx oneF oneF zeroF) (primVel cEx oneF zeroF zeroF)
        (primVel cEx oneF zeroF zeroF) 1 1 1 = 0 ∧
     S13 cEx (primVel cEx oneF oneF zeroF) (primVel cEx oneF zeroF zeroF)
        (primVel cEx oneF zeroF zeroF) 1 1 1 = 0 ∧
     S21 cEx (primVel cEx oneF oneF zeroF) (primVel cEx oneF zeroF zeroF)
        (primVel cEx oneF zeroF zeroF) 1 1 1 = 0 ∧
     S22 cEx (primVel cEx oneF oneF zeroF) (primVel cEx oneF zeroF zeroF)
        (primVel cEx oneF zeroF zeroF) 1 1 1 = 0 ∧
     S23 cEx (primVel cEx oneF oneF zeroF) (primVel cEx oneF zeroF zeroF)
        (primVel cEx oneF zeroF zeroF) 1 1 1 = 0 ∧
     S31 cEx (primVel cEx oneF oneF zeroF) (primVel cEx oneF zeroF zeroF)
        (primVel cEx oneF zeroF zeroF) 1 1 1 = 0 ∧
     S32 cEx (primVel cEx oneF oneF zeroF) (primVel cEx oneF zeroF zeroF)
        (primVel cEx oneF zeroF zeroF) 1 1 1 = 0 ∧
     S33 cEx (primVel cEx oneF oneF zeroF) (primVel cEx oneF zeroF zeroF)
        (primVel cEx oneF zeroF zeroF) 1 1 1 = 0) ∧
    magStrain cEx oneF oneF zeroF zeroF zeroF 1 1 1 = 0 ∧
    DynamicSmagorinsky cEx oneF oneF zeroF zeroF zeroF oneF 1 1 1 = 0 :=
  uniform_velocity_mu_zero cEx oneF oneF zeroF zeroF zeroF oneF 1 1 0 0
    (fun _ _ _ => rfl) (fun _ _ _ => by norm_num [oneF])
    (fun _ _ _ => by norm_num [zeroF]) (fun _ _ _ => by norm_num [zeroF])
    (by norm_num) 1 1 1 (by decide)
